import Mathlib

set_option maxRecDepth 8192
set_option maxHeartbeats 1600000

/-
Verification of the capture-and-render pipeline of the terminal-webcam
program.  The definitions below are shallow embeddings of the JavaScript
sources:

  * `src/renderer/converter.js`   (ImageConverter)
  * `src/renderer/terminal.js`    (TerminalRenderer)
  * `src/webcam/ffmpeg-capture.js`(FFmpegCapture, the hardware frame source)
  * `src/webcam/capture.js`       (WebcamCapture and HybridCapture)

Machine numbers are modelled with `Nat`.  The only place where JavaScript
IEEE-754 double arithmetic is observable on the in-range inputs is the
brightness-to-glyph index `Math.floor((brightness / 255) * (rampLength - 1))`;
that computation is embedded exactly, as integer mantissa arithmetic with
round-to-nearest-ties-to-even (`jsBrightnessIndex` below).
-/

/-- Round `a / b` to the nearest integer, ties to even — the IEEE-754
rounding of a mantissa quotient. -/
def rneDiv (a b : Nat) : Nat :=
  let q := a / b
  let r := a % b
  if 2 * r < b then q
  else if b < 2 * r then q + 1
  else if q % 2 = 0 then q else q + 1

/-- Smallest `k` with `255 ≤ b * 2 ^ k` (so that `b / 255 ∈ [2 ^ (-k), 2 ^ (1 - k))`);
for `1 ≤ b ≤ 255` some `k ≤ 8` works. -/
def mantissaShift (b : Nat) : Nat :=
  ((List.range 9).filter (fun k => 255 ≤ b * 2 ^ k)).headD 8

/-- How many bits a positive mantissa candidate `p` carries beyond 53:
the smallest `t` with `p < 2 ^ (53 + t)`, that is `max 0 (bits p - 53)`. -/
def excessBits (p : Nat) : Nat :=
  ((List.range 64).filter (fun t => p < 2 ^ (53 + t))).headD 64

/-- Exact value of the JavaScript expression
`Math.floor((b / 255) * (rampLength - 1))` evaluated in IEEE-754 double
precision, for a pixel byte `b ≤ 255`.  `b / 255` is rounded to a 53-bit
mantissa `m1`, the product with the exact integer `rampLength - 1` is rounded
again to 53 bits, and the floor of the result is taken.  (For
`rampLength ≤ 1` the product is exactly `0`; the converter is never invoked
with an empty ramp.) -/
def jsBrightnessIndex (rampLength b : Nat) : Nat :=
  if b = 0 ∨ rampLength ≤ 1 then 0
  else
    let k := mantissaShift b
    let m1 := rneDiv (b * 2 ^ (52 + k)) 255
    let p := m1 * (rampLength - 1)
    let t := excessBits p
    let m2 := rneDiv p (2 ^ t)
    if 52 + k ≤ t then m2 * 2 ^ (t - (52 + k)) else m2 / 2 ^ (52 + k - t)

/-- `ImageConverter._brightnessToChar` / the inlined mapping in
`_pixelsToAscii`: `this.charRamp[index]` with
`index = Math.floor((brightness / 255) * (rampLength - 1))`. -/
def brightnessToChar (ramp : List Char) (b : Nat) : Char :=
  ramp.getD (jsBrightnessIndex ramp.length b) ' '

/-- The constructor default character ramp of `ImageConverter`. -/
def defaultRamp : List Char := [' ', '░', '▒', '▓', '█']

/-- `ImageConverter._pixelsToAscii`, before the final newline join: the
`lines` array, row `y` holding the glyphs of pixels
`pixelData[y * width + x]` for `x < width`. -/
def pixelsToAsciiLines (ramp : List Char) (pixelData : List Nat)
    (width height : Nat) : List (List Char) :=
  (List.range height).map fun y =>
    (List.range width).map fun x =>
      brightnessToChar ramp (pixelData.getD (y * width + x) 0)

/-- `ImageConverter._pixelsToAscii`: the rows joined with `'\n'`. -/
def pixelsToAscii (ramp : List Char) (pixelData : List Nat)
    (width height : Nat) : List Char :=
  List.intercalate ['\n'] (pixelsToAsciiLines ramp pixelData width height)

/-- `ImageConverter._createErrorFrame`:
vertical padding of `⌊height / 2⌋` newlines, the line
`' ' * max 0 ⌊(width - errorLine.length) / 2⌋ ++ errorLine`, a newline, and
`max 0 (height - verticalPadding - 1)` further newlines.  (Truncated `Nat`
subtraction coincides with the `Math.max(0, …)` in the source.) -/
def createErrorFrame (width height : Nat) (errorMsg : List Char) : List Char :=
  let errorLine := "ERROR: ".toList ++ errorMsg
  let padding := (width - errorLine.length) / 2
  let verticalPadding := height / 2
  List.replicate verticalPadding '\n' ++
    List.replicate padding ' ' ++ errorLine ++ ['\n'] ++
    List.replicate (height - verticalPadding - 1) '\n'

/-- The `mode` field of `ImageConverter` (constructor value `'auto'`). -/
inductive ConvMode where
  | auto
  | raw
  | sharp
deriving DecidableEq

/-- Which branch of `convertToTerminal` produced the returned text. -/
inductive ConvPath where
  | noInput
  | rawPath
  | sharpPath
  | errorPath
deriving DecidableEq

/-- The external image-processing collaborator (the `sharp` library): given
the source bytes it either fails with a message or yields resized raw
grayscale bytes together with the achieved `info.width`, `info.height`. -/
def SharpFn : Type := List Nat → Except (List Char) (List Nat × Nat × Nat)

/-- `ImageConverter.convertToTerminal`.  A missing source returns the empty
string before the `try` block; a source of exactly `width * height` bytes
with `mode !== 'sharp'` takes the raw hardware path; otherwise the bytes go
through the `sharp` collaborator, whose failure is caught and answered with
`_createErrorFrame`. -/
def convertToTerminal (mode : ConvMode) (ramp : List Char) (sharp : SharpFn)
    (imageSource : Option (List Nat)) (width height : Nat) :
    List Char × ConvPath :=
  match imageSource with
  | none => ([], ConvPath.noInput)
  | some src =>
    if src.length = width * height ∧ mode ≠ ConvMode.sharp then
      (pixelsToAscii ramp src width height, ConvPath.rawPath)
    else
      match sharp src with
      | Except.ok (data, w2, h2) =>
          (pixelsToAscii ramp data w2 h2, ConvPath.sharpPath)
      | Except.error msg =>
          (createErrorFrame width height msg, ConvPath.errorPath)

/-- Split a character list at every `'\n'`, the display rows of a frame
string. -/
def splitLines : List Char → List (List Char)
  | [] => [[]]
  | c :: cs =>
    if c = '\n' then [] :: splitLines cs
    else
      match splitLines cs with
      | [] => [[c]]
      | r :: rs => (c :: r) :: rs

/-- The while-loop of `FFmpegCapture._handleFrameData`, fuelled: while the
buffer holds at least `bytesPerFrame` bytes, slice off one frame and keep
the remainder.  Each iteration removes `bytesPerFrame ≥ 1` bytes, so
`buf.length` fuel suffices; for `bytesPerFrame = 0` the JavaScript loop
would not terminate, and the claims only concern positive frame sizes. -/
def extractLoop (bytesPerFrame : Nat) : Nat → List Nat → List (List Nat) × List Nat
  | 0, buf => ([], buf)
  | fuel + 1, buf =>
    if 0 < bytesPerFrame ∧ bytesPerFrame ≤ buf.length then
      let r := extractLoop bytesPerFrame fuel (buf.drop bytesPerFrame)
      (buf.take bytesPerFrame :: r.1, r.2)
    else ([], buf)

/-- Frame extraction of `FFmpegCapture._handleFrameData` on a buffer:
the complete frames in order, and the remaining carry-over. -/
def extractFrames (bytesPerFrame : Nat) (buf : List Nat) :
    List (List Nat) × List Nat :=
  extractLoop bytesPerFrame buf.length buf

/-- One invocation of `FFmpegCapture._handleFrameData`: the chunk is
appended to the carry-over buffer and complete frames are extracted. -/
def handleFrameData (bytesPerFrame : Nat) (carry chunk : List Nat) :
    List (List Nat) × List Nat :=
  extractFrames bytesPerFrame (carry ++ chunk)

/-- Delivering a sequence of stdout chunks to `_handleFrameData`:
all published frames in publication order, and the final carry-over. -/
def processChunks (bytesPerFrame : Nat) (carry : List Nat) :
    List (List Nat) → List (List Nat) × List Nat
  | [] => ([], carry)
  | c :: cs =>
    let r1 := handleFrameData bytesPerFrame carry c
    let r2 := processChunks bytesPerFrame r1.2 cs
    (r1.1 ++ r2.1, r2.2)

/-- Teardown/restart operations a capture component may perform while
handling `updateResolution`. -/
inductive CapAction where
  | stopProc
  | startProc
  | reinit
deriving DecidableEq

/-- The mutable fields of `FFmpegCapture` that the frame-slot claims
concern. -/
structure FFmpegState where
  isRunning : Bool
  width : Nat
  height : Nat
  bytesPerFrame : Nat
  currentBuffer : Option (List Nat)
  incompleteBuffer : List Nat
deriving DecidableEq

/-- `FFmpegCapture` directly after `initialize(width, height)`: dimensions
and `bytesPerFrame = width * height` recorded, no subprocess yet, no frame
published, empty carry-over. -/
def FFmpegState.afterInit (width height : Nat) : FFmpegState :=
  { isRunning := false
    width := width
    height := height
    bytesPerFrame := width * height
    currentBuffer := none
    incompleteBuffer := [] }

/-- `FFmpegCapture.start`: spawn the subprocess (a no-op when already
running); buffers and dimensions are untouched. -/
def FFmpegState.start (st : FFmpegState) : FFmpegState :=
  if st.isRunning then st else { st with isRunning := true }

/-- `FFmpegCapture._handleFrameData`: append the chunk to the carry-over,
publish every complete frame (the last one extracted stays in
`currentBuffer`), keep the remainder. -/
def FFmpegState.handleFrameData (st : FFmpegState) (chunk : List Nat) :
    FFmpegState :=
  let r := extractFrames st.bytesPerFrame (st.incompleteBuffer ++ chunk)
  { st with
    currentBuffer :=
      match r.1.getLast? with
      | some f => some f
      | none => st.currentBuffer
    incompleteBuffer := r.2 }

/-- The `close` handler of the spawned subprocess: on subprocess exit only
`isRunning` is cleared — the published frame and the carry-over survive. -/
def FFmpegState.procClose (st : FFmpegState) : FFmpegState :=
  { st with isRunning := false }

/-- `FFmpegCapture.stop`: when not running it returns at once (clearing
nothing); otherwise it kills the subprocess, clears the published frame and
the carry-over. -/
def FFmpegState.stop (st : FFmpegState) : FFmpegState :=
  if st.isRunning = false then st
  else { st with isRunning := false, currentBuffer := none, incompleteBuffer := [] }

/-- `FFmpegCapture.updateResolution`: a no-op when both dimensions match;
otherwise `stop()`, record the new geometry, `start()`.  The returned list
records the teardown/restart calls made. -/
def FFmpegState.updateResolution (st : FFmpegState) (w h : Nat) :
    FFmpegState × List CapAction :=
  if w = st.width ∧ h = st.height then (st, [])
  else
    let st1 := st.stop
    let st2 := { st1 with width := w, height := h, bytesPerFrame := w * h }
    (st2.start, [CapAction.stopProc, CapAction.startProc])

/-- External events driving an `FFmpegCapture` instance. -/
inductive FFmpegEv where
  | start
  | chunk (data : List Nat)
  | procClose
  | stop
  | update (w h : Nat)
deriving DecidableEq

/-- One event applied to an `FFmpegCapture`. -/
def FFmpegState.step (st : FFmpegState) : FFmpegEv → FFmpegState
  | FFmpegEv.start => st.start
  | FFmpegEv.chunk d => st.handleFrameData d
  | FFmpegEv.procClose => st.procClose
  | FFmpegEv.stop => st.stop
  | FFmpegEv.update w h => (st.updateResolution w h).1

/-- A whole event sequence applied to an `FFmpegCapture`. -/
def FFmpegState.run (st : FFmpegState) (evs : List FFmpegEv) : FFmpegState :=
  evs.foldl FFmpegState.step st

/-- An event is orderly when `updateResolution` to new dimensions is only
requested while the source is running (the supervisor never restarts a
source that already crashed). -/
def FFmpegState.stepOk (st : FFmpegState) : FFmpegEv → Bool
  | FFmpegEv.update w h =>
      st.isRunning || (decide (w = st.width) && decide (h = st.height))
  | _ => true

/-- All events of the sequence are orderly in the states they hit. -/
def FFmpegState.runOk (st : FFmpegState) : List FFmpegEv → Bool
  | [] => true
  | e :: es => st.stepOk e && (st.step e).runOk es

/-- What a reader of the frame slot may observe: either absence, or a frame
whose byte length is the source's own current `width * height` (and the
recorded `bytesPerFrame` agrees with the dimensions). -/
def frameDimOk (st : FFmpegState) : Bool :=
  (st.bytesPerFrame == st.width * st.height) &&
    (match st.currentBuffer with
     | none => true
     | some b => b.length == st.width * st.height)

/-- The state of `TerminalRenderer` that drives the render cadence:
whether the loop runs, the deadline of the pending `setTimeout` (if any),
the current clock, and how many ticks have executed. -/
structure SchedState where
  isRunning : Bool
  pending : Option Nat
  now : Nat
  ticksFired : Nat
deriving DecidableEq

/-- The operations of one tick of `_captureAndRender`, in program order. -/
inductive TickOp where
  | scheduleNext
  | capture
  | convert
  | callback
deriving DecidableEq

/-- `TerminalRenderer._scheduleNextFrame`: when running, register a timeout
that fires `delay = 1000 / targetFPS` ms from now. -/
def scheduleNextFrame (delay : Nat) (st : SchedState) : SchedState :=
  if st.isRunning = false then st
  else { st with pending := some (st.now + delay) }

/-- `TerminalRenderer._captureAndRender`: guard on `isRunning`, then
schedule the next tick FIRST, then do the tick's work — reading the latest
frame and, when one is present, converting and delivering it.  `work` is
the (arbitrary) duration of that work, `hasFrame` whether
`getLatestFrame()` returned a frame. -/
def captureAndRender (delay work : Nat) (hasFrame : Bool)
    (st : SchedState) : SchedState × List TickOp :=
  if st.isRunning = false then (st, [])
  else
    let st1 := scheduleNextFrame delay st
    let st2 := { st1 with now := st1.now + work, ticksFired := st1.ticksFired + 1 }
    (st2, TickOp.scheduleNext :: TickOp.capture ::
      (if hasFrame then [TickOp.convert, TickOp.callback] else []))

/-- The event loop delivering the pending timeout: time advances to the
deadline (or stays, when the work of the previous tick overran it) and the
tick body runs. -/
def fireNext (delay work : Nat) (hasFrame : Bool) (st : SchedState) :
    SchedState × List TickOp :=
  match st.pending with
  | none => (st, [])
  | some d =>
    captureAndRender delay work hasFrame
      { st with now := max st.now d, pending := none }

/-- Run the scheduler over a list of ticks, each with its own work duration
and frame availability. -/
def runSched (delay : Nat) (st : SchedState) :
    List (Nat × Bool) → SchedState
  | [] => st
  | (w, hf) :: rest => runSched delay (fireNext delay w hf st).1 rest

/-- Outcome of one acquisition attempt of the software capture loop:
either the captured bytes with their timestamp, or a failure. -/
inductive AcqOutcome where
  | ok (bytes : List Nat) (t : Nat)
  | fail (msg : List Char)
deriving DecidableEq

/-- The mutable fields of `WebcamCapture` that the continuous-capture
claims concern, plus an iteration counter instrumenting how many times the
body of the `while (this.continuousMode)` loop ran. -/
structure SoftState where
  continuousMode : Bool
  captureInProgress : Bool
  lastFrameBuffer : Option (List Nat)
  lastFrameTimestamp : Nat
  iterations : Nat
deriving DecidableEq

/-- One iteration of `WebcamCapture._runCaptureLoop`: when the loop flag is
down the body does not run; when a prior acquisition is still in progress
the iteration is skipped; otherwise the acquisition runs — on success the
bytes and timestamp are published, on failure the error is logged and the
previous frame is left untouched — and `captureInProgress` is cleared in
the `finally` block either way. -/
def loopIteration (st : SoftState) (r : AcqOutcome) : SoftState :=
  if st.continuousMode = false then st
  else
    let st1 := { st with iterations := st.iterations + 1 }
    if st1.captureInProgress then st1
    else
      match r with
      | AcqOutcome.ok bytes t =>
        { st1 with
          lastFrameBuffer := some bytes
          lastFrameTimestamp := t
          captureInProgress := false }
      | AcqOutcome.fail _ => { st1 with captureInProgress := false }

/-- `WebcamCapture._runCaptureLoop` over a sequence of acquisition
outcomes. -/
def runCaptureLoop (st : SoftState) : List AcqOutcome → SoftState
  | [] => st
  | r :: rs => runCaptureLoop (loopIteration st r) rs

/-- The last successful acquisition of a sequence, if any. -/
def lastSuccess : List AcqOutcome → Option (List Nat × Nat)
  | [] => none
  | r :: rs =>
    match lastSuccess rs with
    | some x => some x
    | none =>
      match r with
      | AcqOutcome.ok b t => some (b, t)
      | AcqOutcome.fail _ => none

/-- The configuration fields of `WebcamCapture` that `updateResolution`
consults. -/
structure WebcamState where
  isInitialized : Bool
  configWidth : Nat
  configHeight : Nat
deriving DecidableEq

/-- `WebcamCapture.updateResolution`: a no-op when both dimensions equal
the configured ones; otherwise store the new dimensions and reinitialize
the webcam (which leaves it initialized at the new geometry). -/
def WebcamState.updateResolution (st : WebcamState) (w h : Nat) :
    WebcamState × List CapAction :=
  if w = st.configWidth ∧ h = st.configHeight then (st, [])
  else
    ({ isInitialized := true, configWidth := w, configHeight := h },
      [CapAction.reinit])

/-- The active source owned by `HybridCapture`. -/
inductive ActiveCap where
  | noCap
  | hw (st : FFmpegState)
  | sw (st : WebcamState)
deriving DecidableEq

/-- The fields of `HybridCapture` that `updateResolution` touches. -/
structure HybridState where
  width : Nat
  height : Nat
  active : ActiveCap
deriving DecidableEq

/-- `HybridCapture.updateResolution`: a no-op when both dimensions match
the supervisor's record; otherwise record them and delegate to the active
source's `updateResolution`. -/
def HybridState.updateResolution (st : HybridState) (w h : Nat) :
    HybridState × List CapAction :=
  if w = st.width ∧ h = st.height then (st, [])
  else
    let st1 := { st with width := w, height := h }
    match st1.active with
    | ActiveCap.noCap => (st1, [])
    | ActiveCap.hw f =>
      let r := f.updateResolution w h
      ({ st1 with active := ActiveCap.hw r.1 }, r.2)
    | ActiveCap.sw s =>
      let r := s.updateResolution w h
      ({ st1 with active := ActiveCap.sw r.1 }, r.2)

/-- The `performanceStats` accumulators of `TerminalRenderer`. -/
structure PerfStats where
  captureTime : Nat
  sharpTime : Nat
  totalTime : Nat
  sampleCount : Nat
deriving DecidableEq

/-- The accumulators as the `TerminalRenderer` constructor (and each reset)
leaves them. -/
def initialPerfStats : PerfStats :=
  { captureTime := 0, sharpTime := 0, totalTime := 0, sampleCount := 0 }

/-- `TerminalRenderer._trackPerformance`: add the three stage timings and
bump the sample count; only when `enablePerfLogging` is on and the bumped
count is a multiple of 100 are the averages reported (the returned flag)
and the accumulators reset. -/
def trackPerformance (enablePerfLogging : Bool) (st : PerfStats)
    (c s t : Nat) : PerfStats × Bool :=
  let st1 : PerfStats :=
    { captureTime := st.captureTime + c
      sharpTime := st.sharpTime + s
      totalTime := st.totalTime + t
      sampleCount := st.sampleCount + 1 }
  if enablePerfLogging ∧ st1.sampleCount % 100 = 0 then (initialPerfStats, true)
  else (st1, false)

/-- A sequence of `_trackPerformance` calls. -/
def runTrack (enable : Bool) (st : PerfStats) :
    List (Nat × Nat × Nat) → PerfStats
  | [] => st
  | (c, s, t) :: rest => runTrack enable (trackPerformance enable st c s t).1 rest

/-- A `sharp` collaborator that fails on every input, as it does on a
malformed encoded image. -/
def sharpAlwaysFails : SharpFn :=
  fun _ => Except.error ("Input buffer contains unsupported image format".toList)

theorem extractLoop_flatten (bpf : Nat) :
    ∀ (fuel : Nat) (buf : List Nat), buf.length ≤ fuel →
      ((extractLoop bpf fuel buf).1).flatten ++ (extractLoop bpf fuel buf).2 = buf := by
  intro fuel
  induction fuel with
  | zero => intro buf _; simp [extractLoop]
  | succ n ih =>
    intro buf h
    by_cases hc : 0 < bpf ∧ bpf ≤ buf.length
    · have hdrop : (buf.drop bpf).length ≤ n := by
        simp only [List.length_drop]; omega
      simp only [extractLoop, if_pos hc, List.flatten_cons, List.append_assoc,
        ih (buf.drop bpf) hdrop]
      exact List.take_append_drop bpf buf
    · simp [extractLoop, if_neg hc]

theorem extractLoop_mem_length (bpf : Nat) :
    ∀ (fuel : Nat) (buf : List Nat) (f : List Nat),
      f ∈ (extractLoop bpf fuel buf).1 → f.length = bpf := by
  intro fuel
  induction fuel with
  | zero => intro buf f hf; simp [extractLoop] at hf
  | succ n ih =>
    intro buf f hf
    by_cases hc : 0 < bpf ∧ bpf ≤ buf.length
    · simp only [extractLoop, if_pos hc, List.mem_cons] at hf
      rcases hf with rfl | hf
      · simp only [List.length_take]; omega
      · exact ih _ _ hf
    · simp [extractLoop, if_neg hc] at hf

theorem extractLoop_rem_lt (bpf : Nat) (hbpf : 0 < bpf) :
    ∀ (fuel : Nat) (buf : List Nat), buf.length ≤ fuel →
      ((extractLoop bpf fuel buf).2).length < bpf := by
  intro fuel
  induction fuel with
  | zero => intro buf h; simp only [extractLoop]; omega
  | succ n ih =>
    intro buf h
    by_cases hc : 0 < bpf ∧ bpf ≤ buf.length
    · simp only [extractLoop, if_pos hc]
      exact ih _ (by simp only [List.length_drop]; omega)
    · simp only [extractLoop, if_neg hc]
      push_neg at hc
      exact hc hbpf

theorem extractFrames_flatten (bpf : Nat) (buf : List Nat) :
    ((extractFrames bpf buf).1).flatten ++ (extractFrames bpf buf).2 = buf :=
  extractLoop_flatten bpf buf.length buf (le_refl _)

theorem extractFrames_mem_length (bpf : Nat) (buf f : List Nat)
    (hf : f ∈ (extractFrames bpf buf).1) : f.length = bpf :=
  extractLoop_mem_length bpf buf.length buf f hf

theorem extractFrames_rem_lt (bpf : Nat) (hbpf : 0 < bpf) (buf : List Nat) :
    ((extractFrames bpf buf).2).length < bpf :=
  extractLoop_rem_lt bpf hbpf buf.length buf (le_refl _)

theorem processChunks_flatten (bpf : Nat) :
    ∀ (cs : List (List Nat)) (carry : List Nat),
      ((processChunks bpf carry cs).1).flatten ++ (processChunks bpf carry cs).2 =
        carry ++ cs.flatten := by
  intro cs
  induction cs with
  | nil => intro carry; simp [processChunks]
  | cons c cs ih =>
    intro carry
    simp only [processChunks, List.flatten_append, List.flatten_cons,
      List.append_assoc, ih, handleFrameData]
    rw [← List.append_assoc, extractFrames_flatten]
    simp [List.append_assoc]

theorem processChunks_mem_length (bpf : Nat) :
    ∀ (cs : List (List Nat)) (carry : List Nat) (f : List Nat),
      f ∈ (processChunks bpf carry cs).1 → f.length = bpf := by
  intro cs
  induction cs with
  | nil => intro carry f hf; simp [processChunks] at hf
  | cons c cs ih =>
    intro carry f hf
    simp only [processChunks, List.mem_append] at hf
    rcases hf with hf | hf
    · exact extractFrames_mem_length bpf (carry ++ c) f hf
    · exact ih _ _ hf

theorem processChunks_rem_lt (bpf : Nat) (hbpf : 0 < bpf) :
    ∀ (cs : List (List Nat)) (carry : List Nat), carry.length < bpf →
      ((processChunks bpf carry cs).2).length < bpf := by
  intro cs
  induction cs with
  | nil => intro carry h; simpa [processChunks] using h
  | cons c cs ih =>
    intro carry _
    simp only [processChunks]
    exact ih _ (extractFrames_rem_lt bpf hbpf (carry ++ c))

theorem flatten_length_uniform (bpf : Nat) :
    ∀ (fs : List (List Nat)), (∀ f ∈ fs, f.length = bpf) →
      fs.flatten.length = fs.length * bpf := by
  intro fs
  induction fs with
  | nil => intro _; simp
  | cons f fs ih =>
    intro h
    have hf : f.length = bpf := h f (List.mem_cons_self f fs)
    have hrest := ih fun g hg => h g (List.mem_cons_of_mem f hg)
    simp only [List.flatten_cons, List.length_append, List.length_cons, hf, hrest,
      Nat.succ_mul]
    omega

theorem flatten_slice (bpf : Nat) :
    ∀ (fs : List (List Nat)), (∀ f ∈ fs, f.length = bpf) →
      ∀ i, i < fs.length →
        fs[i]? = some ((fs.flatten.drop (i * bpf)).take bpf) := by
  intro fs
  induction fs with
  | nil => intro _ i hi; simp at hi
  | cons f fs ih =>
    intro hlen i hi
    have hf : f.length = bpf := hlen f (List.mem_cons_self f fs)
    cases i with
    | zero =>
      simp only [List.getElem?_cons_zero, List.flatten_cons, Nat.zero_mul,
        List.drop_zero, ← hf, List.take_left]
    | succ i =>
      have h2 : ∀ g ∈ fs, g.length = bpf := fun g hg => hlen g (List.mem_cons_of_mem f hg)
      have hi2 : i < fs.length := by simpa using hi
      rw [List.getElem?_cons_succ, ih h2 i hi2, List.flatten_cons]
      have hmul : (i + 1) * bpf = f.length + i * bpf := by rw [hf]; ring
      rw [hmul, ← List.drop_drop, List.drop_left]

/-- C1: a `HardwareFrameSource` fed exactly `k * frameByteLength` bytes
(`frameByteLength = width * height`, both positive) across any chunking
publishes exactly `k` frames, each of exactly `frameByteLength` bytes, the
`i`-th being the `i`-th consecutive slice of the byte stream; the final
carry-over is empty, and after processing any chunk sequence the carry-over
stays strictly below `frameByteLength`. -/
theorem hardware_demux_correct (width height k : Nat) (hw : 0 < width)
    (hh : 0 < height) (chunks : List (List Nat))
    (hlen : chunks.flatten.length = k * (width * height)) :
    ((processChunks (width * height) [] chunks).1).length = k ∧
    (∀ f ∈ (processChunks (width * height) [] chunks).1,
      f.length = width * height) ∧
    (∀ i, i < k →
      ((processChunks (width * height) [] chunks).1)[i]? =
        some ((chunks.flatten.drop (i * (width * height))).take (width * height))) ∧
    (processChunks (width * height) [] chunks).2 = [] ∧
    (∀ cs : List (List Nat),
      ((processChunks (width * height) [] cs).2).length < width * height) := by
  have hbpf : 0 < width * height := Nat.mul_pos hw hh
  have hmem : ∀ f ∈ (processChunks (width * height) [] chunks).1,
      f.length = width * height :=
    fun f hf => processChunks_mem_length (width * height) chunks [] f hf
  have hflat := processChunks_flatten (width * height) chunks []
  have hremlt : ((processChunks (width * height) [] chunks).2).length < width * height :=
    processChunks_rem_lt (width * height) hbpf chunks [] (by simpa using hbpf)
  have hflen : ((processChunks (width * height) [] chunks).1).flatten.length =
      ((processChunks (width * height) [] chunks).1).length * (width * height) :=
    flatten_length_uniform (width * height) _ hmem
  have htot : ((processChunks (width * height) [] chunks).1).length * (width * height) +
      ((processChunks (width * height) [] chunks).2).length = k * (width * height) := by
    have hl := congrArg List.length hflat
    simp only [List.length_append, List.nil_append, hflen, hlen] at hl
    exact hl
  have hnk : ((processChunks (width * height) [] chunks).1).length = k := by
    rcases Nat.lt_trichotomy ((processChunks (width * height) [] chunks).1).length k with h | h | h
    · exfalso
      have h2 : (((processChunks (width * height) [] chunks).1).length + 1) * (width * height) ≤
          k * (width * height) := Nat.mul_le_mul_right (width * height) h
      rw [Nat.succ_mul] at h2
      linarith
    · exact h
    · exfalso
      have h2 : (k + 1) * (width * height) ≤
          ((processChunks (width * height) [] chunks).1).length * (width * height) :=
        Nat.mul_le_mul_right (width * height) h
      rw [Nat.succ_mul] at h2
      linarith
  have hremlen : ((processChunks (width * height) [] chunks).2).length = 0 := by
    rw [hnk] at htot
    omega
  have hremnil : (processChunks (width * height) [] chunks).2 = [] :=
    List.length_eq_zero.mp hremlen
  have hflat2 : ((processChunks (width * height) [] chunks).1).flatten = chunks.flatten := by
    rw [hremnil, List.append_nil, List.nil_append] at hflat
    exact hflat
  refine ⟨hnk, hmem, ?_, hremnil,
    fun cs => processChunks_rem_lt (width * height) hbpf cs [] (by simpa using hbpf)⟩
  intro i hi
  have hs := flatten_slice (width * height) _ hmem i (by rw [hnk]; exact hi)
  rw [hflat2] at hs
  exact hs

/-- Witness for C1 at the spec's own demux example (`frameByteLength = 4`,
chunks of 3 then 5 bytes, two frames). -/
theorem hardware_demux_correct_witness :
    ((processChunks (2 * 2) [] [[1, 2, 3], [4, 5, 6, 7, 8]]).1).length = 2 ∧
    (∀ f ∈ (processChunks (2 * 2) [] [[1, 2, 3], [4, 5, 6, 7, 8]]).1,
      f.length = 2 * 2) ∧
    (∀ i, i < 2 →
      ((processChunks (2 * 2) [] [[1, 2, 3], [4, 5, 6, 7, 8]]).1)[i]? =
        some ((([[1, 2, 3], [4, 5, 6, 7, 8]] : List (List Nat)).flatten.drop
          (i * (2 * 2))).take (2 * 2))) ∧
    (processChunks (2 * 2) [] [[1, 2, 3], [4, 5, 6, 7, 8]]).2 = [] ∧
    (∀ cs : List (List Nat),
      ((processChunks (2 * 2) [] cs).2).length < 2 * 2) :=
  hardware_demux_correct 2 2 2 (by decide) (by decide)
    [[1, 2, 3], [4, 5, 6, 7, 8]] (by decide)

theorem frameDimOk_iff (st : FFmpegState) :
    frameDimOk st = true ↔
      (st.bytesPerFrame = st.width * st.height ∧
        ∀ b, st.currentBuffer = some b → b.length = st.width * st.height) := by
  unfold frameDimOk
  cases hcb : st.currentBuffer with
  | none => simp [hcb]
  | some b => simp [hcb]

theorem frameDimOk_step (st : FFmpegState) (e : FFmpegEv)
    (h : frameDimOk st = true) (hok : st.stepOk e = true) :
    frameDimOk (st.step e) = true := by
  obtain ⟨hbpf, hbuf⟩ := (frameDimOk_iff st).mp h
  cases e with
  | start =>
    rw [frameDimOk_iff]
    unfold FFmpegState.step FFmpegState.start
    by_cases hr : st.isRunning <;> simp [hr, hbpf] <;> exact hbuf
  | chunk d =>
    rw [frameDimOk_iff]
    cases hl : (extractFrames st.bytesPerFrame (st.incompleteBuffer ++ d)).1.getLast? with
    | none =>
      unfold FFmpegState.step FFmpegState.handleFrameData
      simp only [hl]
      exact ⟨hbpf, hbuf⟩
    | some f =>
      have hfmem : f ∈ (extractFrames st.bytesPerFrame (st.incompleteBuffer ++ d)).1 := by
        obtain ⟨hne, hfeq⟩ := List.mem_getLast?_eq_getLast (Option.mem_def.mpr hl)
        rw [hfeq]
        exact List.getLast_mem hne
      have hflen : f.length = st.bytesPerFrame :=
        extractFrames_mem_length st.bytesPerFrame (st.incompleteBuffer ++ d) f hfmem
      unfold FFmpegState.step FFmpegState.handleFrameData
      simp only [hl]
      refine ⟨hbpf, ?_⟩
      intro b hb
      simp only [Option.some.injEq] at hb
      rw [← hb, hflen, hbpf]
  | procClose =>
    rw [frameDimOk_iff]
    unfold FFmpegState.step FFmpegState.procClose
    exact ⟨hbpf, hbuf⟩
  | stop =>
    rw [frameDimOk_iff]
    unfold FFmpegState.step FFmpegState.stop
    by_cases hr : st.isRunning = false <;> simp [hr, hbpf] <;> exact hbuf
  | update w h2 =>
    unfold FFmpegState.step FFmpegState.updateResolution
    by_cases hd : w = st.width ∧ h2 = st.height
    · simpa [hd] using h
    · have hrun : st.isRunning = true := by
        unfold FFmpegState.stepOk at hok
        simp only [Bool.or_eq_true, Bool.and_eq_true, decide_eq_true_eq] at hok
        rcases hok with hok | hok
        · exact hok
        · exact absurd hok hd
      rw [frameDimOk_iff]
      simp [hd, FFmpegState.stop, FFmpegState.start, hrun]

/-- C2 (amended): a reader of the hardware source's frame slot observes
absence or a frame of exactly the source's current `width * height` bytes,
for every event sequence in which `updateResolution` to new dimensions is
only requested while the source is running; and the invariant holds of the
freshly initialized source.  (The unrestricted claim fails after a
subprocess crash — see the counterexample.) -/
theorem frame_slot_dimension_invariant (st0 : FFmpegState) (evs : List FFmpegEv)
    (h0 : frameDimOk st0 = true) (hok : st0.runOk evs = true) :
    frameDimOk (st0.run evs) = true ∧
    (∀ w h : Nat, frameDimOk (FFmpegState.afterInit w h) = true) := by
  refine ⟨?_, fun w h => by simp [frameDimOk, FFmpegState.afterInit]⟩
  induction evs generalizing st0 with
  | nil => simpa [FFmpegState.run] using h0
  | cons e es ih =>
    unfold FFmpegState.runOk at hok
    rw [Bool.and_eq_true] at hok
    have hstep := frameDimOk_step st0 e h0 hok.1
    have : st0.run (e :: es) = (st0.step e).run es := rfl
    rw [this]
    exact ih (st0.step e) hstep hok.2

/-- Witness for C2's amended invariant: an orderly session — start, stream
five bytes (one 4-byte frame published), resize to 3×3 while running,
stream more bytes — keeps the slot consistent with the dimensions. -/
theorem frame_slot_dimension_invariant_witness :
    frameDimOk ((FFmpegState.afterInit 2 2).run
      [FFmpegEv.start, FFmpegEv.chunk [1, 2, 3, 4, 5], FFmpegEv.update 3 3,
        FFmpegEv.chunk [1, 2, 3, 4, 5, 6, 7, 8, 9, 10]]) = true ∧
    (∀ w h : Nat, frameDimOk (FFmpegState.afterInit w h) = true) :=
  frame_slot_dimension_invariant (FFmpegState.afterInit 2 2)
    [FFmpegEv.start, FFmpegEv.chunk [1, 2, 3, 4, 5], FFmpegEv.update 3 3,
      FFmpegEv.chunk [1, 2, 3, 4, 5, 6, 7, 8, 9, 10]]
    (by decide) (by decide)

/-- C2 counterexample: after a subprocess crash (`close` fires, so
`isRunning` is already false) `updateResolution(3, 3)` calls `stop()`,
which returns without clearing anything; the 4-byte frame of the old 2×2
geometry stays in the slot while the dimensions already read 3×3 — a reader
observes old-dimension bytes paired with the new dimensions. -/
theorem frame_slot_dimension_counterexample :
    ((FFmpegState.afterInit 2 2).run
      [FFmpegEv.start, FFmpegEv.chunk [9, 9, 9, 9], FFmpegEv.procClose,
        FFmpegEv.update 3 3]).currentBuffer = some [9, 9, 9, 9] ∧
    ((FFmpegState.afterInit 2 2).run
      [FFmpegEv.start, FFmpegEv.chunk [9, 9, 9, 9], FFmpegEv.procClose,
        FFmpegEv.update 3 3]).width = 3 ∧
    ((FFmpegState.afterInit 2 2).run
      [FFmpegEv.start, FFmpegEv.chunk [9, 9, 9, 9], FFmpegEv.procClose,
        FFmpegEv.update 3 3]).height = 3 ∧
    frameDimOk ((FFmpegState.afterInit 2 2).run
      [FFmpegEv.start, FFmpegEv.chunk [9, 9, 9, 9], FFmpegEv.procClose,
        FFmpegEv.update 3 3]) = false := by decide

theorem fireNext_step (delay work : Nat) (hf : Bool) (st : SchedState)
    (hrun : st.isRunning = true) (hp : st.pending.isSome = true) :
    (fireNext delay work hf st).1.isRunning = true ∧
    (fireNext delay work hf st).1.pending.isSome = true ∧
    (fireNext delay work hf st).1.ticksFired = st.ticksFired + 1 := by
  obtain ⟨d, hd⟩ := Option.isSome_iff_exists.mp hp
  simp [fireNext, hd, captureAndRender, scheduleNextFrame, hrun]

/-- C3: every tick of the running render scheduler schedules the next tick
(deadline one interval after the tick starts) before any capture, convert,
or callback work; consequently, over any sequence of ticks with arbitrary
work durations — including durations exceeding the interval — every tick
fires and a next tick is always pending: the loop never stalls. -/
theorem scheduler_schedules_before_work (delay : Nat) (st : SchedState)
    (ticks : List (Nat × Bool)) (hrun : st.isRunning = true)
    (hp : st.pending.isSome = true) :
    (runSched delay st ticks).ticksFired = st.ticksFired + ticks.length ∧
    (runSched delay st ticks).pending.isSome = true ∧
    (runSched delay st ticks).isRunning = true ∧
    (∀ (work : Nat) (hasFrame : Bool) (s : SchedState), s.isRunning = true →
      ((captureAndRender delay work hasFrame s).2).head? = some TickOp.scheduleNext ∧
      (captureAndRender delay work hasFrame s).1.pending = some (s.now + delay)) := by
  have horder : ∀ (work : Nat) (hasFrame : Bool) (s : SchedState), s.isRunning = true →
      ((captureAndRender delay work hasFrame s).2).head? = some TickOp.scheduleNext ∧
      (captureAndRender delay work hasFrame s).1.pending = some (s.now + delay) := by
    intro work hasFrame s hs
    simp [captureAndRender, scheduleNextFrame, hs]
  have main : ∀ (ticks : List (Nat × Bool)) (st : SchedState),
      st.isRunning = true → st.pending.isSome = true →
      (runSched delay st ticks).ticksFired = st.ticksFired + ticks.length ∧
      (runSched delay st ticks).pending.isSome = true ∧
      (runSched delay st ticks).isRunning = true := by
    intro ticks
    induction ticks with
    | nil => intro st h1 h2; simpa [runSched] using ⟨h2, h1⟩
    | cons wh rest ih =>
      intro st h1 h2
      obtain ⟨w, hf⟩ := wh
      obtain ⟨s1, s2, s3⟩ := fireNext_step delay w hf st h1 h2
      obtain ⟨i1, i2, i3⟩ := ih (fireNext delay w hf st).1 s1 s2
      refine ⟨?_, i2, i3⟩
      have : runSched delay st ((w, hf) :: rest) =
          runSched delay (fireNext delay w hf st).1 rest := rfl
      rw [this, i1, s3, List.length_cons]
      omega
  exact ⟨(main ticks st hrun hp).1, (main ticks st hrun hp).2.1,
    (main ticks st hrun hp).2.2, horder⟩

/-- Witness for C3: two ticks, the first with work duration 500 against a
50 ms interval — both fire and a next tick stays pending. -/
theorem scheduler_schedules_before_work_witness :
    (runSched 50 { isRunning := true, pending := some 0, now := 0, ticksFired := 0 }
      [(500, true), (7, false)]).ticksFired =
      ({ isRunning := true, pending := some 0, now := 0, ticksFired := 0 } : SchedState).ticksFired +
        ([(500, true), (7, false)] : List (Nat × Bool)).length ∧
    (runSched 50 { isRunning := true, pending := some 0, now := 0, ticksFired := 0 }
      [(500, true), (7, false)]).pending.isSome = true ∧
    (runSched 50 { isRunning := true, pending := some 0, now := 0, ticksFired := 0 }
      [(500, true), (7, false)]).isRunning = true ∧
    (∀ (work : Nat) (hasFrame : Bool) (s : SchedState), s.isRunning = true →
      ((captureAndRender 50 work hasFrame s).2).head? = some TickOp.scheduleNext ∧
      (captureAndRender 50 work hasFrame s).1.pending = some (s.now + 50)) :=
  scheduler_schedules_before_work 50
    { isRunning := true, pending := some 0, now := 0, ticksFired := 0 }
    [(500, true), (7, false)] (by decide) (by decide)

/-- C4 counterexample: at ramp length 52 and brightness 155 the IEEE-754
evaluation `Math.floor((155 / 255) * 51)` performed by the converter yields
glyph index 30, while the claimed exact value `⌊155 / 255 · 51⌋` is 31
(`155 · 51 = 7905 = 31 · 255` exactly, and the double rounding of
`155 / 255` falls just below). -/
theorem brightness_glyph_mapping_counterexample :
    jsBrightnessIndex 52 155 = 30 ∧ 155 * (52 - 1) / 255 = 31 ∧
    jsBrightnessIndex 52 155 ≠ 155 * (52 - 1) / 255 := by decide

/-- C4 (amended): for every brightness byte `b ≤ 255` and every ramp length
`L` with `2 ≤ L ≤ 51` or `L = 70` — which covers every character set
shipped with the program (their lengths are 3, 5, 6, 8, 9, 10, 11 and 70,
the last being the 70-level Dense set) — the converter's glyph index equals
`⌊b / 255 · (L - 1)⌋` exactly, lies in `[0, L - 1]`, and is monotonically
non-decreasing in `b`; for the default ramp `" ░▒▓█"` brightness 0 maps to
`' '`, 128 to `'▒'`, and 255 to `'█'`.  (For other ramp lengths from 52 up
the IEEE-754 evaluation can fall one below the exact floor — the first
deviation is at length 52, brightness 155; see the counterexample.) -/
theorem brightness_glyph_mapping :
    (∀ b L : Nat, b ≤ 255 → 2 ≤ L → L ≤ 51 →
      jsBrightnessIndex L b = b * (L - 1) / 255 ∧
      jsBrightnessIndex L b ≤ L - 1 ∧
      ∀ b2, b2 ≤ b → jsBrightnessIndex L b2 ≤ jsBrightnessIndex L b) ∧
    (∀ b : Nat, b ≤ 255 →
      jsBrightnessIndex 70 b = b * (70 - 1) / 255 ∧
      jsBrightnessIndex 70 b ≤ 70 - 1 ∧
      ∀ b2, b2 ≤ b → jsBrightnessIndex 70 b2 ≤ jsBrightnessIndex 70 b) ∧
    brightnessToChar defaultRamp 0 = ' ' ∧
    brightnessToChar defaultRamp 128 = '▒' ∧
    brightnessToChar defaultRamp 255 = '█' := by
  have core : ∀ b < 256, ∀ L < 52, 2 ≤ L →
      jsBrightnessIndex L b = b * (L - 1) / 255 := by decide
  have core70 : ∀ b < 256, jsBrightnessIndex 70 b = b * (70 - 1) / 255 := by
    decide
  have bound : ∀ b L : Nat, b ≤ 255 → b * (L - 1) / 255 ≤ L - 1 := by
    intro b L hb
    calc b * (L - 1) / 255 ≤ 255 * (L - 1) / 255 :=
          Nat.div_le_div_right (Nat.mul_le_mul_right (L - 1) hb)
      _ = L - 1 := Nat.mul_div_cancel_left (L - 1) (by norm_num)
  refine ⟨?_, ?_, by decide, by decide, by decide⟩
  · intro b L hb hL2 hL51
    have h1 : jsBrightnessIndex L b = b * (L - 1) / 255 :=
      core b (by omega) L (by omega) hL2
    refine ⟨h1, h1 ▸ bound b L hb, ?_⟩
    intro b2 hb2
    rw [h1, core b2 (by omega) L (by omega) hL2]
    exact Nat.div_le_div_right (Nat.mul_le_mul_right (L - 1) hb2)
  · intro b hb
    have h1 : jsBrightnessIndex 70 b = b * (70 - 1) / 255 :=
      core70 b (by omega)
    refine ⟨h1, h1 ▸ bound b 70 hb, ?_⟩
    intro b2 hb2
    rw [h1, core70 b2 (by omega)]
    exact Nat.div_le_div_right (Nat.mul_le_mul_right (70 - 1) hb2)

/-- C5: a frame that already consists of raw grayscale bytes of exactly
`targetWidth * targetHeight` bytes is mapped to glyphs directly — the
converter takes the raw path, touching neither decode nor resize (the
`sharp` collaborator is not consulted) — and yields `targetHeight` rows of
`targetWidth` glyphs each, joined row-major with the `'\n'` separator. -/
theorem raw_path_no_resize (mode : ConvMode) (ramp : List Char)
    (sharp : SharpFn) (src : List Nat) (w h : Nat)
    (hlen : src.length = w * h) (hmode : mode ≠ ConvMode.sharp) :
    convertToTerminal mode ramp sharp (some src) w h =
      (List.intercalate ['\n'] (pixelsToAsciiLines ramp src w h),
        ConvPath.rawPath) ∧
    (pixelsToAsciiLines ramp src w h).length = h ∧
    ∀ row ∈ pixelsToAsciiLines ramp src w h, row.length = w := by
  refine ⟨?_, ?_, ?_⟩
  · simp [convertToTerminal, hlen, hmode, pixelsToAscii]
  · simp [pixelsToAsciiLines]
  · intro row hrow
    simp only [pixelsToAsciiLines, List.mem_map] at hrow
    obtain ⟨y, _, hrw⟩ := hrow
    rw [← hrw]
    simp

/-- Witness for C5: a 2×2 raw grayscale frame takes the raw path and
produces two rows of two glyphs. -/
theorem raw_path_no_resize_witness :
    convertToTerminal ConvMode.auto defaultRamp sharpAlwaysFails
      (some [0, 255, 128, 64]) 2 2 =
      (List.intercalate ['\n']
        (pixelsToAsciiLines defaultRamp [0, 255, 128, 64] 2 2),
        ConvPath.rawPath) ∧
    (pixelsToAsciiLines defaultRamp [0, 255, 128, 64] 2 2).length = 2 ∧
    (∀ row ∈ pixelsToAsciiLines defaultRamp [0, 255, 128, 64] 2 2,
      row.length = 2) :=
  raw_path_no_resize ConvMode.auto defaultRamp sharpAlwaysFails
    [0, 255, 128, 64] 2 2 (by decide) (by decide)

/-- C6 counterexample: on a conversion failure the converter answers with
`_createErrorFrame`, whose rows are NOT padded to the requested width — at
`targetWidth = 10`, `targetHeight = 4` the placeholder does not consist of
4 rows of 10 glyphs (its first row is empty and its message row is longer
than 10). -/
theorem conversion_error_frame_counterexample :
    (convertToTerminal ConvMode.auto defaultRamp sharpAlwaysFails
      (some [1, 2, 3]) 10 4).2 = ConvPath.errorPath ∧
    ¬((splitLines (convertToTerminal ConvMode.auto defaultRamp
        sharpAlwaysFails (some [1, 2, 3]) 10 4).1).length = 4 ∧
      ∀ r ∈ splitLines (convertToTerminal ConvMode.auto defaultRamp
        sharpAlwaysFails (some [1, 2, 3]) 10 4).1, r.length = 10) := by decide

/-- C6 (amended): on any decode/resize failure the converter catches the
error and returns the `_createErrorFrame` placeholder instead of raising:
a frame with exactly `targetHeight` newline-terminated rows (for
`targetHeight ≥ 1`) whose middle row carries the readable message
`"ERROR: " ++ msg`, horizontally offset by the centering padding.  The
placeholder's rows are not padded to `targetWidth`, so it is not a grid of
exactly `targetWidth × targetHeight` glyphs (see the counterexample). -/
theorem conversion_failure_placeholder (mode : ConvMode) (ramp : List Char)
    (sharp : SharpFn) (src : List Nat) (w h : Nat) (msg : List Char)
    (hnotraw : ¬(src.length = w * h ∧ mode ≠ ConvMode.sharp))
    (hfail : sharp src = Except.error msg) (hh : 1 ≤ h)
    (hmsg : '\n' ∉ msg) :
    convertToTerminal mode ramp sharp (some src) w h =
      (createErrorFrame w h msg, ConvPath.errorPath) ∧
    (createErrorFrame w h msg).count '\n' = h ∧
    ∃ pre suf, createErrorFrame w h msg =
      pre ++ ("ERROR: ".toList ++ msg) ++ suf := by
  refine ⟨?_, ?_, ?_⟩
  · simp [convertToTerminal, hnotraw, hfail]
  · have hE : ("ERROR: ".toList).count '\n' = 0 := by decide
    have hM : msg.count '\n' = 0 := List.count_eq_zero.mpr hmsg
    have hSp : ∀ n : Nat, (List.replicate n ' ').count '\n' = 0 := by
      intro n; simp [List.count_replicate]
    have hNl : ∀ n : Nat, (List.replicate n '\n').count '\n' = n := by
      intro n; simp [List.count_replicate]
    have hOne : (['\n'] : List Char).count '\n' = 1 := by decide
    simp only [createErrorFrame, List.count_append, hE, hM, hSp, hNl, hOne]
    omega
  · refine ⟨List.replicate (h / 2) '\n' ++
      List.replicate ((w - ("ERROR: ".toList ++ msg).length) / 2) ' ',
      ['\n'] ++ List.replicate (h - h / 2 - 1) '\n', ?_⟩
    simp [createErrorFrame, List.append_assoc]

/-- Witness for C6's amended statement at a malformed 3-byte input and a
10×4 target. -/
theorem conversion_failure_placeholder_witness :
    convertToTerminal ConvMode.auto defaultRamp sharpAlwaysFails
      (some [1, 2, 3]) 10 4 =
      (createErrorFrame 10 4
        ("Input buffer contains unsupported image format".toList),
        ConvPath.errorPath) ∧
    (createErrorFrame 10 4
      ("Input buffer contains unsupported image format".toList)).count '\n' = 4 ∧
    ∃ pre suf, createErrorFrame 10 4
        ("Input buffer contains unsupported image format".toList) =
      pre ++ ("ERROR: ".toList ++
        "Input buffer contains unsupported image format".toList) ++ suf :=
  conversion_failure_placeholder ConvMode.auto defaultRamp sharpAlwaysFails
    [1, 2, 3] 10 4 ("Input buffer contains unsupported image format".toList)
    (by decide) rfl (by decide) (by decide)

/-- C7: a failing acquisition inside the software source's continuous loop
is swallowed (the iteration function is total, so nothing propagates to
the scheduler), leaves the published frame untouched, and the loop keeps
iterating: over any outcome sequence every scheduled iteration runs, the
loop flag stays up, and the published frame is the last successful
acquisition's bytes — or the prior frame when none succeeded. -/
theorem software_loop_resilient (st : SoftState) (os : List AcqOutcome)
    (hc : st.continuousMode = true) (hp : st.captureInProgress = false) :
    (runCaptureLoop st os).iterations = st.iterations + os.length ∧
    (runCaptureLoop st os).continuousMode = true ∧
    (∀ (st2 : SoftState) (msg : List Char),
      (loopIteration st2 (AcqOutcome.fail msg)).lastFrameBuffer =
        st2.lastFrameBuffer) ∧
    ((runCaptureLoop st os).lastFrameBuffer =
      match lastSuccess os with
      | some x => some x.1
      | none => st.lastFrameBuffer) := by
  have hfail : ∀ (st2 : SoftState) (msg : List Char),
      (loopIteration st2 (AcqOutcome.fail msg)).lastFrameBuffer =
        st2.lastFrameBuffer := by
    intro st2 msg
    unfold loopIteration
    by_cases h1 : st2.continuousMode = false
    · simp [h1]
    · by_cases h2 : st2.captureInProgress <;> simp [h1, h2]
  have main : ∀ (os : List AcqOutcome) (st : SoftState),
      st.continuousMode = true → st.captureInProgress = false →
      (runCaptureLoop st os).iterations = st.iterations + os.length ∧
      (runCaptureLoop st os).continuousMode = true ∧
      ((runCaptureLoop st os).lastFrameBuffer =
        match lastSuccess os with
        | some x => some x.1
        | none => st.lastFrameBuffer) := by
    intro os
    induction os with
    | nil => intro st h1 h2; simp [runCaptureLoop, lastSuccess, h1]
    | cons r rs ih =>
      intro st h1 h2
      have hstep : (loopIteration st r).continuousMode = true ∧
          (loopIteration st r).captureInProgress = false ∧
          (loopIteration st r).iterations = st.iterations + 1 ∧
          ((loopIteration st r).lastFrameBuffer =
            match r with
            | AcqOutcome.ok b _ => some b
            | AcqOutcome.fail _ => st.lastFrameBuffer) := by
        cases r <;> simp [loopIteration, h1, h2]
      obtain ⟨hs1, hs2, hs3, hs4⟩ := hstep
      obtain ⟨i1, i2, i3⟩ := ih (loopIteration st r) hs1 hs2
      have hrw : runCaptureLoop st (r :: rs) =
          runCaptureLoop (loopIteration st r) rs := rfl
      refine ⟨?_, by rw [hrw]; exact i2, ?_⟩
      · rw [hrw, i1, hs3, List.length_cons]
        omega
      · rw [hrw, i3]
        cases hls : lastSuccess rs with
        | some x => simp [lastSuccess, hls]
        | none => cases r <;> simp [lastSuccess, hls, hs4]
  exact ⟨(main os st hc hp).1, (main os st hc hp).2.1, hfail,
    (main os st hc hp).2.2⟩

/-- Witness for C7: a success, a failure, then another success — three
iterations run, the failure leaves the first frame visible, and the final
frame is the last success. -/
theorem software_loop_resilient_witness :
    (runCaptureLoop
        { continuousMode := true, captureInProgress := false,
          lastFrameBuffer := none, lastFrameTimestamp := 0, iterations := 0 }
        [AcqOutcome.ok [1, 2] 5, AcqOutcome.fail ("boom".toList),
          AcqOutcome.ok [3, 4] 9]).iterations =
      ({ continuousMode := true, captureInProgress := false,
          lastFrameBuffer := none, lastFrameTimestamp := 0,
          iterations := 0 } : SoftState).iterations +
        ([AcqOutcome.ok [1, 2] 5, AcqOutcome.fail ("boom".toList),
          AcqOutcome.ok [3, 4] 9] : List AcqOutcome).length ∧
    (runCaptureLoop
        { continuousMode := true, captureInProgress := false,
          lastFrameBuffer := none, lastFrameTimestamp := 0, iterations := 0 }
        [AcqOutcome.ok [1, 2] 5, AcqOutcome.fail ("boom".toList),
          AcqOutcome.ok [3, 4] 9]).continuousMode = true ∧
    (∀ (st2 : SoftState) (msg : List Char),
      (loopIteration st2 (AcqOutcome.fail msg)).lastFrameBuffer =
        st2.lastFrameBuffer) ∧
    ((runCaptureLoop
        { continuousMode := true, captureInProgress := false,
          lastFrameBuffer := none, lastFrameTimestamp := 0, iterations := 0 }
        [AcqOutcome.ok [1, 2] 5, AcqOutcome.fail ("boom".toList),
          AcqOutcome.ok [3, 4] 9]).lastFrameBuffer =
      match lastSuccess [AcqOutcome.ok [1, 2] 5,
        AcqOutcome.fail ("boom".toList), AcqOutcome.ok [3, 4] 9] with
      | some x => some x.1
      | none =>
        ({ continuousMode := true, captureInProgress := false,
            lastFrameBuffer := none, lastFrameTimestamp := 0,
            iterations := 0 } : SoftState).lastFrameBuffer) :=
  software_loop_resilient
    { continuousMode := true, captureInProgress := false,
      lastFrameBuffer := none, lastFrameTimestamp := 0, iterations := 0 }
    [AcqOutcome.ok [1, 2] 5, AcqOutcome.fail ("boom".toList),
      AcqOutcome.ok [3, 4] 9] (by decide) (by decide)

/-- C8: calling `updateResolution` with the currently configured dimensions
is an idempotent no-op on every frame source — the hardware source, the
software source, and the supervisor each return before any teardown or
restart, with their entire state unchanged and no stop/start/reinitialize
action performed. -/
theorem updateResolution_same_dims_noop :
    (∀ st : FFmpegState, st.updateResolution st.width st.height = (st, [])) ∧
    (∀ st : WebcamState,
      st.updateResolution st.configWidth st.configHeight = (st, [])) ∧
    (∀ st : HybridState, st.updateResolution st.width st.height = (st, [])) := by
  refine ⟨fun st => ?_, fun st => ?_, fun st => ?_⟩
  · simp [FFmpegState.updateResolution]
  · simp [WebcamState.updateResolution]
  · simp [HybridState.updateResolution]

/-- Witness for C8 at concrete states of all three components. -/
theorem updateResolution_same_dims_noop_witness :
    (⟨true, 640, 480, 640 * 480, none, []⟩ : FFmpegState).updateResolution 640 480 =
      ((⟨true, 640, 480, 640 * 480, none, []⟩ : FFmpegState), []) ∧
    (⟨true, 600, 150⟩ : WebcamState).updateResolution 600 150 =
      ((⟨true, 600, 150⟩ : WebcamState), []) ∧
    (⟨600, 150, ActiveCap.noCap⟩ : HybridState).updateResolution 600 150 =
      ((⟨600, 150, ActiveCap.noCap⟩ : HybridState), []) :=
  ⟨updateResolution_same_dims_noop.1 _, updateResolution_same_dims_noop.2.1 _,
    updateResolution_same_dims_noop.2.2 _⟩

/-- C9 counterexample: performance logging is off by default, and the
reset in `_trackPerformance` lives inside the
`if (this.enablePerfLogging && …)` guard — with logging disabled the
accumulators are never reset, and after 101 recorded samples the sample
count is 101. -/
theorem perf_reset_counterexample :
    (runTrack false initialPerfStats
      (List.replicate 101 (1, 1, 1))).sampleCount = 101 := by decide

/-- C9 (amended): when performance logging is enabled throughout the run,
`_trackPerformance` reports and resets the accumulators exactly when the
bumped sample count reaches a multiple of 100; starting below 100 (e.g. at
the constructor's zeroed stats) the stored sample count stays below 100
forever, so it never reaches 101. -/
theorem perf_reset_invariant (samples : List (Nat × Nat × Nat))
    (st : PerfStats) (h : st.sampleCount < 100) :
    (runTrack true st samples).sampleCount < 100 ∧
    (∀ (st2 : PerfStats) (c s t : Nat), (st2.sampleCount + 1) % 100 = 0 →
      trackPerformance true st2 c s t = (initialPerfStats, true)) := by
  have hreset : ∀ (st2 : PerfStats) (c s t : Nat),
      (st2.sampleCount + 1) % 100 = 0 →
      trackPerformance true st2 c s t = (initialPerfStats, true) := by
    intro st2 c s t hmod
    simp [trackPerformance, hmod]
  have main : ∀ (samples : List (Nat × Nat × Nat)) (st : PerfStats),
      st.sampleCount < 100 → (runTrack true st samples).sampleCount < 100 := by
    intro samples
    induction samples with
    | nil => intro st h1; simpa [runTrack] using h1
    | cons x rest ih =>
      intro st h1
      obtain ⟨c, s, t⟩ := x
      have hstep : (trackPerformance true st c s t).1.sampleCount < 100 := by
        by_cases hmod : (st.sampleCount + 1) % 100 = 0
        · simp [trackPerformance, hmod, initialPerfStats]
        · simp only [trackPerformance, true_and, if_neg hmod]
          omega
      exact ih _ hstep
  exact ⟨main samples st h, hreset⟩

/-- Witness for C9's amended statement: two samples recorded from the
zeroed accumulators with logging enabled. -/
theorem perf_reset_invariant_witness :
    (runTrack true initialPerfStats [(1, 2, 3), (4, 5, 6)]).sampleCount < 100 ∧
    (∀ (st2 : PerfStats) (c s t : Nat), (st2.sampleCount + 1) % 100 = 0 →
      trackPerformance true st2 c s t = (initialPerfStats, true)) :=
  perf_reset_invariant [(1, 2, 3), (4, 5, 6)] initialPerfStats (by decide)

/-- C10: a missing image source (`null`/`undefined`) makes
`convertToTerminal` return the empty string — via the guard before the
`try` block, raising nothing — and never the error placeholder, which is
never empty; absence of input is thus distinguishable from conversion
failure at the converter interface. -/
theorem null_source_returns_empty (mode : ConvMode) (ramp : List Char)
    (sharp : SharpFn) (w h : Nat) :
    convertToTerminal mode ramp sharp none w h = ([], ConvPath.noInput) ∧
    ∀ (w2 h2 : Nat) (msg : List Char), createErrorFrame w2 h2 msg ≠ [] := by
  refine ⟨rfl, ?_⟩
  intro w2 h2 msg hcontra
  simp [createErrorFrame] at hcontra

/-- Witness for C10 with the default ramp and an 80×24 target. -/
theorem null_source_returns_empty_witness :
    convertToTerminal ConvMode.auto defaultRamp sharpAlwaysFails none 80 24 =
      ([], ConvPath.noInput) ∧
    ∀ (w2 h2 : Nat) (msg : List Char), createErrorFrame w2 h2 msg ≠ [] :=
  null_source_returns_empty ConvMode.auto defaultRamp sharpAlwaysFails 80 24
